import Mathlib

/-!
# RetailInsight forecasting engine: shallow embedding and verification

This file embeds the two forecasting variants of the RetailInsight backend
into Lean 4 and proves the specification's claims about them.

* `forecastProduct` embeds `forecast_product` from `src/backend/model/predictor.py`
  (the recursive, window-feeding variant exercised by the serving path in
  `src/backend/app.py`).
* `simpleForecast` embeds `MATPFNModel.simple_forecast` from
  `src/backend/model/matpfn.py` (the static, non-recursive variant).

Conventions of the embedding:
* A calendar date is an integer day number (`Int`); day-of-week is the residue
  mod 7.  Both grouping and lookup use the same residue, so the embedding is
  faithful up to a constant relabelling of Python's Monday=0 convention.
* Quantities are exact rationals (`ℚ`): the Python floats are modelled with
  real-number semantics, which is what the spec's formulas describe.
* The input of each engine is the already validated per-product series
  (the `df_p` / post-`dropna`-`sort_values` dataframe): an ordered list of
  (date, quantity) observations.  Validation/coercion of raw records is out of
  scope per spec section 1.
* `pandas.std` (sample standard deviation, `ddof=1`) is an irrational square
  root, so the clamp stage of `simple_forecast` is modelled over `ℝ`
  (`Real.sqrt` of the exact rational sample variance).
-/

set_option maxRecDepth 4000

/-- An observation: (date as integer day number, quantity sold). -/
abbrev Obs := Int × ℚ

/-- The quantity column of a series (`df_p["quantity_sold"]`). -/
def qtys (h : List Obs) : List ℚ := h.map Prod.snd

/-- The date column of a series. -/
def datesOf (h : List Obs) : List Int := h.map Prod.fst

/-- Day-of-week of an integer day number (`date.weekday()` up to relabelling). -/
def dow (d : Int) : Int := d % 7

/-- Arithmetic mean of a list (`np.mean` / `Series.mean`); 0 on `[]` (unreachable
in all guarded uses). -/
def mean (l : List ℚ) : ℚ := l.sum / (l.length : ℚ)

/-- The last `n` entries of a list (`xs[-n:]`). -/
def lastN (n : Nat) (l : List α) : List α := l.drop (l.length - n)

/-- The value of `df_p["date"].max()` (fold over the date column). -/
def lastDateOf (h : List Obs) : Int :=
  match datesOf h with
  | [] => 0
  | d :: ds => ds.foldl max d

/-- The value of `df["date"].min()` (fold over the date column). -/
def minDateOf (h : List Obs) : Int :=
  match datesOf h with
  | [] => 0
  | d :: ds => ds.foldl min d

/-- The value of `series.iloc[-1]` on the quantity column (guarded nonempty at call sites). -/
def lastQty (h : List Obs) : ℚ := (qtys h).getLastD 0

/-- Ordinary least-squares slope of `ys` against `xs`
(`np.polyfit(x, y, 1)[0]` in exact arithmetic). -/
def olsSlope (xs ys : List ℚ) : ℚ :=
  ((xs.zip ys).map (fun p => (p.1 - mean xs) * (p.2 - mean ys))).sum /
    (xs.map (fun x => (x - mean xs) ^ 2)).sum

/-- Ordinary least-squares intercept of `ys` against `xs`
(`np.polyfit(x, y, 1)[1]` in exact arithmetic). -/
def olsIntercept (xs ys : List ℚ) : ℚ :=
  mean ys - olsSlope xs ys * mean xs

/-- Population variance of a list (square of `np.std`, `ddof=0`). -/
def popVar (l : List ℚ) : ℚ :=
  (l.map (fun y => (y - mean l) ^ 2)).sum / (l.length : ℚ)

/-- Sample variance of a list (square of `pandas.Series.std`, `ddof=1`). -/
def sampleVar (l : List ℚ) : ℚ :=
  (l.map (fun y => (y - mean l) ^ 2)).sum / ((l.length : ℚ) - 1)

/-- Python `int(...)` on a real value: truncation toward zero. -/
def pyInt (q : ℚ) : Int := if 0 ≤ q then q.floor else -((-q).floor)

/-- Python `max` on two numbers (kernel-reducible form of `max` on `ℚ`). -/
def pymax (a b : ℚ) : ℚ := if a ≤ b then b else a

theorem pymax_eq_max (a b : ℚ) : pymax a b = max a b := by
  rw [pymax, max_def]

/- ### Embedding of `predictor.py` (serving-path engine) -/

/-- The trailing fitting window of `_compute_trend`: `values[-window:]` with
`window = min(n, max_window)`. -/
def trendWin (values : List ℚ) (maxWindow : Nat) : List ℚ :=
  lastN (min values.length maxWindow) values

/-- The integer time indices `x = 0..window-1` of `_compute_trend`. -/
def trendXs (values : List ℚ) (maxWindow : Nat) : List ℚ :=
  (List.range (min values.length maxWindow)).map (fun i => (i : ℚ))

/-- The function `_compute_trend(values, max_window)`: least-squares trend over the trailing
window, returning `(slope, last_trend_level)`, exactly as
`predictor.py` lines 13-25: `return a, b + a * (window - 1)`. -/
def computeTrend (values : List ℚ) (maxWindow : Nat) : ℚ × ℚ :=
  if values.length < 2 then (0, values.getLastD 0)
  else
    (olsSlope (trendXs values maxWindow) (trendWin values maxWindow),
     olsIntercept (trendXs values maxWindow) (trendWin values maxWindow)
       + olsSlope (trendXs values maxWindow) (trendWin values maxWindow)
         * (((min values.length maxWindow : Nat) : ℚ) - 1))

/-- The day-of-week bucket of a series: quantities observed on that weekday
(`groupby("dow")` group of `_compute_seasonality_by_dow`). -/
def dowBucket (h : List Obs) (w : Int) : List ℚ :=
  (h.filter (fun o => dow o.1 = w)).map Prod.snd

/-- Lookup `dow_means.get(w, fallback)`: the bucket mean quantity when the weekday
occurs in the history, otherwise the fallback. -/
def dowMeansGet (h : List Obs) (w : Int) (fallback : ℚ) : ℚ :=
  if (dowBucket h w).isEmpty then fallback else mean (dowBucket h w)

/-- Level component (`predictor.py` lines 81-84): mean of the last 7 window
entries, or of the whole window when shorter than 7. -/
def levelComponent (w : List ℚ) : ℚ :=
  if 7 ≤ w.length then mean (lastN 7 w) else mean w

/-- Trend component used inside the forecast loop (`predictor.py` line 88):
`last_trend_level + slope * step`. -/
def trendComponent (slope lastTrendLevel : ℚ) (step : Nat) : ℚ :=
  lastTrendLevel + slope * (step : ℚ)

/-- The per-call constants of `forecast_product`, all computed once from the
original observed series before the forecast loop starts. -/
structure FuseCtx where
  hist : List Obs
  overallMean : ℚ
  slope : ℚ
  lastTrendLevel : ℚ
  lastDate : Int
  deriving DecidableEq

/-- One emitted forecast step: its date, the fused value before the
non-negativity floor (`y_hat` at `predictor.py` line 95-99), and the floored
value actually emitted (line 102). -/
structure Step where
  date : Int
  fused : ℚ
  value : ℚ
  deriving DecidableEq

/-- Fused prediction before the floor (`predictor.py` lines 95-99):
`0.4 * level + 0.4 * trend + 0.2 * season`. -/
def fusedVal (c : FuseCtx) (w : List ℚ) (step : Nat) : ℚ :=
  (2 / 5) * levelComponent w
    + (2 / 5) * trendComponent c.slope c.lastTrendLevel step
    + (1 / 5) * dowMeansGet c.hist (dow (c.lastDate + (step : Int))) c.overallMean

/-- Emitted value: `max(0.0, y_hat)` (`predictor.py` line 102). -/
def stepValue (c : FuseCtx) (w : List ℚ) (step : Nat) : ℚ :=
  pymax 0 (fusedVal c w step)

/-- Window update (`predictor.py` lines 108-110): append the prediction, then
evict the oldest entry when the length exceeds 30. -/
def nextWindow (w : List ℚ) (y : ℚ) : List ℚ :=
  if 30 < (w ++ [y]).length then (w ++ [y]).tail else w ++ [y]

/-- One iteration of the forecast loop: the emitted step and the updated
working level window. -/
def fuseStep (c : FuseCtx) (w : List ℚ) (step : Nat) : Step × List ℚ :=
  (⟨c.lastDate + (step : Int), fusedVal c w step, stepValue c w step⟩,
   nextWindow w (stepValue c w step))

/-- The forecast loop (`for step in range(1, horizon + 1)`): runs `k` more
iterations starting at step number `s0` with working window `w`. -/
def runSteps (c : FuseCtx) : List ℚ → Nat → Nat → List Step
  | _, _, 0 => []
  | w, s0, k + 1 =>
    (fuseStep c w s0).1 :: runSteps c (fuseStep c w s0).2 (s0 + 1) k

/-- The working level window after `k` iterations of the loop. -/
def iterW (c : FuseCtx) : List ℚ → Nat → Nat → List ℚ
  | w, _, 0 => w
  | w, s0, k + 1 => iterW c (fuseStep c w s0).2 (s0 + 1) k

/-- The per-call constants as computed by `forecast_product` lines 53-74. -/
def mkCtx (h : List Obs) : FuseCtx :=
  { hist := h
    overallMean := mean (qtys h)
    slope := (computeTrend (qtys h) 90).1
    lastTrendLevel := (computeTrend (qtys h) 90).2
    lastDate := lastDateOf h }

/-- The window seed: `window_values = last_30.copy()` (lines 54, 64). -/
def seedWindow (h : List Obs) : List ℚ := lastN 30 (qtys h)

/-- Successful result of `forecast_product`: the emitted steps (dates, fused
and floored values) and the echoed last-120-days history (lines 112-124). -/
structure ForecastResult where
  steps : List Step
  histEcho : List Obs
  deriving DecidableEq

/-- The success branch of `forecast_product` (lines 52-124). -/
def forecastCore (h : List Obs) (horizon : Nat) : ForecastResult :=
  { steps := runSteps (mkCtx h) (seedWindow h) 1 horizon
    histEcho := lastN 120 h }

/-- The function `forecast_product(product_id, horizon)` on the validated per-product series
(`predictor.py` lines 35-124).  The two error dictionaries become `Except`
errors; the serving layer (`app.py` line 68) maps them to HTTP errors. -/
def forecastProduct (h : List Obs) (horizon : Nat) : Except String ForecastResult :=
  if h.isEmpty then Except.error "No sales data for this product."
  else if h.length < 30 then Except.error "Not enough history (<30 days) for this product."
  else Except.ok (forecastCore h horizon)

/- ### Embedding of `matpfn.py` (`MATPFNModel.simple_forecast`) -/

/-- The numeric time index `t` (`matpfn.py` line 45): days from the first date. -/
def tIdx (h : List Obs) : List ℚ :=
  h.map (fun o => ((o.1 - minDateOf h : Int) : ℚ))

/-- Trend agent (`matpfn.py` lines 49-53): `(slope, intercept)` of the
least-squares line of quantity against `t`, guarded against all time indices
being identical (`np.all(t == t[0])` → slope 0, intercept = mean). -/
def matpfnTrend (h : List Obs) : ℚ × ℚ :=
  if (tIdx h).all (fun x => decide (x = (tIdx h).headD 0)) then (0, mean (qtys h))
  else (olsSlope (tIdx h) (qtys h), olsIntercept (tIdx h) (qtys h))

/-- The quantity `global_mean` (`matpfn.py` line 58). -/
def matpfnGlobalMean (h : List Obs) : ℚ := mean (qtys h)

/-- Level agent (`matpfn.py` lines 61-62):
mean of the trailing `min(7, len(df))` quantities. -/
def matpfnLevelMean (h : List Obs) : ℚ :=
  mean (lastN (min 7 h.length) (qtys h))

/-- The value of `df["date"].iloc[-1]` on the sorted series (`matpfn.py` line 67). -/
def matpfnLastDate (h : List Obs) : Int := (datesOf h).getLastD 0

/-- The fused prediction for forecast day `i` before clamping
(`matpfn.py` lines 72-93): `0.5 * trend_pred + 0.3 * (level + seasonal_adj)
+ 0.2 * last_val`, where `seasonal_adj` is the day-of-week mean's deviation
from the global mean. -/
def matpfnFusedRaw (h : List Obs) (i : Nat) : ℚ :=
  (1 / 2) * ((matpfnTrend h).1 * ((matpfnLastDate h + (i : Int) - minDateOf h : Int) : ℚ)
      + (matpfnTrend h).2)
    + (3 / 10) * (matpfnLevelMean h
      + (dowMeansGet h (dow (matpfnLastDate h + (i : Int))) (matpfnGlobalMean h)
        - matpfnGlobalMean h))
    + (1 / 5) * lastQty h

/-- Volatility agent (`matpfn.py` line 64): `df["quantity_sold"].std()` when
more than one row, else 0.  `pandas.std` is the sample standard deviation
(`ddof = 1`), an irrational square root, hence valued in `ℝ`. -/
noncomputable def matpfnVol (h : List Obs) : ℝ :=
  if 1 < h.length then Real.sqrt ((sampleVar (qtys h) : ℚ) : ℝ) else 0

/-- The clamp (`matpfn.py` lines 96-99): when volatility is positive, clip the
fused value to `[global_mean - 3·vol, global_mean + 3·vol]`. -/
noncomputable def matpfnFusedClamped (h : List Obs) (i : Nat) : ℝ :=
  if 0 < matpfnVol h then
    max (((matpfnGlobalMean h : ℚ) : ℝ) - 3 * matpfnVol h)
      (min (((matpfnGlobalMean h : ℚ) : ℝ) + 3 * matpfnVol h) ((matpfnFusedRaw h i : ℚ) : ℝ))
  else ((matpfnFusedRaw h i : ℚ) : ℝ)

/-- Python `round` on a real value: round half to even, as applied by
`int(round(fused))` at `matpfn.py` line 101. -/
noncomputable def pyRoundR (x : ℝ) : ℤ :=
  if x - (⌊x⌋ : ℝ) < 1 / 2 then ⌊x⌋
  else if (1 : ℝ) / 2 < x - (⌊x⌋ : ℝ) then ⌊x⌋ + 1
  else if ⌊x⌋ % 2 = 0 then ⌊x⌋ else ⌊x⌋ + 1

/-- The method `MATPFNModel.simple_forecast(pdf, horizon)` on the validated sorted series
(`matpfn.py` lines 19-103): empty input yields no forecast, fewer than 5 rows
yields the truncated last value repeated, otherwise the fused, clamped,
rounded and floored prediction for each of the `horizon` days. -/
noncomputable def simpleForecast (h : List Obs) (horizon : Nat) : List Int :=
  if h.isEmpty then []
  else if h.length < 5 then List.replicate horizon (pyInt (lastQty h))
  else (List.range horizon).map (fun j => max 0 (pyRoundR (matpfnFusedClamped h (j + 1))))

/- ### Definitions taken from the spec's words (for refinement claims) -/

/-- Modelled from the spec (section 4.2, extrapolation contract): "for forecast
step `s` (1-indexed) beyond the last observed day, the trend component equals
the fitted value at the window's last index plus `slope · s`", the window being
the last `min(len(series), W)` points with integer time indices `0..k-1` and an
ordinary least-squares fit. -/
def specTrendExtrapolation (vs : List ℚ) (s : Nat) : ℚ :=
  (olsSlope ((List.range (min vs.length 90)).map (fun i => (i : ℚ)))
        (lastN (min vs.length 90) vs) * (((min vs.length 90 : Nat) : ℚ) - 1)
      + olsIntercept ((List.range (min vs.length 90)).map (fun i => (i : ℚ)))
        (lastN (min vs.length 90) vs))
    + olsSlope ((List.range (min vs.length 90)).map (fun i => (i : ℚ)))
        (lastN (min vs.length 90) vs) * (s : ℚ)

/- ### General lemmas about the building blocks -/

theorem sum_const {l : List ℚ} {c : ℚ} (hc : ∀ x ∈ l, x = c) :
    l.sum = c * (l.length : ℚ) := by
  induction l with
  | nil => simp
  | cons a t ih =>
    have ha : a = c := hc a (by simp)
    have ht : t.sum = c * (t.length : ℚ) := ih (fun x hx => hc x (by simp [hx]))
    simp only [List.sum_cons, List.length_cons, ha, ht]
    push_cast
    ring

theorem mean_const {l : List ℚ} {c : ℚ} (h0 : l ≠ []) (hc : ∀ x ∈ l, x = c) :
    mean l = c := by
  have hl : (l.length : ℚ) ≠ 0 := by
    have : 0 < l.length := List.length_pos.mpr h0
    exact_mod_cast Nat.pos_iff_ne_zero.mp this
  rw [mean, sum_const hc, mul_div_assoc, div_self hl, mul_one]

theorem getLastD_mem {l : List ℚ} (h0 : l ≠ []) (d : ℚ) : l.getLastD d ∈ l := by
  induction l with
  | nil => exact absurd rfl h0
  | cons a t ih =>
    cases t with
    | nil => simp
    | cons b u => simpa using Or.inr (ih (by simp))

theorem lastN_length {n : Nat} {l : List α} (h : n ≤ l.length) :
    (lastN n l).length = n := by
  simp [lastN]
  omega

theorem lastN_subset (n : Nat) (l : List α) : ∀ x ∈ lastN n l, x ∈ l :=
  fun _ hx => List.drop_subset _ _ hx

theorem lastN_ne_nil {n : Nat} {l : List α} (hn : 0 < n) (h : n ≤ l.length) :
    lastN n l ≠ [] := by
  have := lastN_length h
  intro hnil
  rw [hnil] at this
  simp at this
  omega

theorem olsSlope_const {xs ys : List ℚ} {c : ℚ} (h0 : ys ≠ [])
    (hc : ∀ y ∈ ys, y = c) : olsSlope xs ys = 0 := by
  rw [olsSlope]
  have hz : ((xs.zip ys).map (fun p => (p.1 - mean xs) * (p.2 - mean ys))).sum = 0 := by
    apply List.sum_eq_zero
    intro x hx
    rcases List.mem_map.mp hx with ⟨p, hp, hpx⟩
    have h2 : p.2 ∈ ys := (List.of_mem_zip hp).2
    rw [← hpx, mean_const h0 hc, hc p.2 h2]
    ring
  rw [hz, zero_div]

theorem olsIntercept_const {xs ys : List ℚ} {c : ℚ} (h0 : ys ≠ [])
    (hc : ∀ y ∈ ys, y = c) : olsIntercept xs ys = c := by
  rw [olsIntercept, olsSlope_const h0 hc, mean_const h0 hc, zero_mul, sub_zero]

theorem trendWin_ne_nil {vs : List ℚ} (mw : Nat) (h0 : vs ≠ []) (hmw : 0 < mw) :
    trendWin vs mw ≠ [] := by
  have hl : 0 < vs.length := List.length_pos.mpr h0
  exact lastN_ne_nil (by omega) (Nat.min_le_left _ _)

theorem computeTrend_const {vs : List ℚ} {c : ℚ} (h0 : vs ≠ [])
    (hc : ∀ x ∈ vs, x = c) : computeTrend vs 90 = (0, c) := by
  rw [computeTrend]
  by_cases h2 : vs.length < 2
  · rw [if_pos h2]
    rw [hc _ (getLastD_mem h0 0)]
  · rw [if_neg h2]
    have hnn : trendWin vs 90 ≠ [] := trendWin_ne_nil 90 h0 (by omega)
    have hcc : ∀ x ∈ trendWin vs 90, x = c :=
      fun x hx => hc x (lastN_subset _ _ x hx)
    rw [olsSlope_const hnn hcc, olsIntercept_const hnn hcc]
    simp

theorem dowBucket_sub_qtys {h : List Obs} {w : Int} :
    ∀ q ∈ dowBucket h w, q ∈ qtys h := by
  intro q hq
  rcases List.mem_map.mp hq with ⟨o, ho, hoq⟩
  exact List.mem_map.mpr ⟨o, List.mem_of_mem_filter ho, hoq⟩

theorem dowMeansGet_const {h : List Obs} {c : ℚ} (hc : ∀ q ∈ qtys h, q = c)
    (w : Int) : dowMeansGet h w c = c := by
  rw [dowMeansGet]
  by_cases he : (dowBucket h w).isEmpty
  · rw [if_pos he]
  · rw [if_neg he]
    exact mean_const (by simpa [List.isEmpty_iff] using he)
      (fun q hq => hc q (dowBucket_sub_qtys q hq))

theorem levelComponent_const {w : List ℚ} {c : ℚ} (h0 : w ≠ [])
    (hc : ∀ x ∈ w, x = c) : levelComponent w = c := by
  rw [levelComponent]
  by_cases h7 : 7 ≤ w.length
  · rw [if_pos h7]
    exact mean_const (lastN_ne_nil (by omega) h7)
      (fun x hx => hc x (lastN_subset _ _ x hx))
  · rw [if_neg h7]
    exact mean_const h0 hc

/- ### Lemmas about the forecast loop -/

theorem runSteps_length (c : FuseCtx) (w : List ℚ) (s0 k : Nat) :
    (runSteps c w s0 k).length = k := by
  induction k generalizing w s0 with
  | zero => rfl
  | succ k ih => simp [runSteps, ih]

theorem runSteps_getD (c : FuseCtx) (d : Step) :
    ∀ (k i : Nat) (w : List ℚ) (s0 : Nat), i < k →
      (runSteps c w s0 k).getD i d = (fuseStep c (iterW c w s0 i) (s0 + i)).1 := by
  intro k
  induction k with
  | zero => intro i w s0 hi; omega
  | succ k ih =>
    intro i w s0 hi
    cases i with
    | zero => simp [runSteps, iterW]
    | succ i =>
      have hik : i < k := by omega
      have hstep : (runSteps c w s0 (k + 1)).getD (i + 1) d
          = (runSteps c (fuseStep c w s0).2 (s0 + 1) k).getD i d := by
        simp [runSteps]
      rw [hstep, ih i _ _ hik]
      have harg : iterW c (fuseStep c w s0).2 (s0 + 1) i = iterW c w s0 (i + 1) := rfl
      have hs : s0 + 1 + i = s0 + (i + 1) := by omega
      rw [harg, hs]

theorem nextWindow_length_le {w : List ℚ} (hw : w.length ≤ 30) (y : ℚ) :
    (nextWindow w y).length ≤ 30 := by
  rw [nextWindow]
  by_cases h : 30 < (w ++ [y]).length
  · rw [if_pos h]
    simp at h ⊢
    omega
  · rw [if_neg h]
    simp at h ⊢
    omega

theorem nextWindow_length_eq {w : List ℚ} (hw : w.length = 30) (y : ℚ) :
    (nextWindow w y).length = 30 := by
  rw [nextWindow, if_pos (by simp [hw])]
  simp [hw]

theorem nextWindow_ne_nil (w : List ℚ) (y : ℚ) : nextWindow w y ≠ [] := by
  rw [nextWindow]
  by_cases h : 30 < (w ++ [y]).length
  · rw [if_pos h]
    apply List.ne_nil_of_length_pos
    rw [List.length_tail]
    omega
  · rw [if_neg h]
    simp

theorem nextWindow_subset (w : List ℚ) (y : ℚ) :
    ∀ x ∈ nextWindow w y, x ∈ w ++ [y] := by
  intro x hx
  rw [nextWindow] at hx
  by_cases h : 30 < (w ++ [y]).length
  · rw [if_pos h] at hx
    exact List.tail_subset _ hx
  · rwa [if_neg h] at hx

theorem iterW_length_eq (c : FuseCtx) :
    ∀ (i : Nat) (w : List ℚ) (s0 : Nat), w.length = 30 →
      (iterW c w s0 i).length = 30 := by
  intro i
  induction i with
  | zero => intro w s0 hw; exact hw
  | succ i ih =>
    intro w s0 hw
    exact ih _ _ (nextWindow_length_eq hw _)

theorem iterW_length_le (c : FuseCtx) :
    ∀ (i : Nat) (w : List ℚ) (s0 : Nat), w.length ≤ 30 →
      (iterW c w s0 i).length ≤ 30 := by
  intro i
  induction i with
  | zero => intro w s0 hw; exact hw
  | succ i ih =>
    intro w s0 hw
    exact ih _ _ (nextWindow_length_le hw _)

theorem qtys_ne_nil {h : List Obs} (h0 : h ≠ []) : qtys h ≠ [] := by
  intro hq
  exact h0 (List.map_eq_nil_iff.mp hq)

theorem fusedVal_mkCtx_const {h : List Obs} {c : ℚ} (h0 : h ≠ [])
    (hc : ∀ q ∈ qtys h, q = c) {w : List ℚ} (hw0 : w ≠ [])
    (hwc : ∀ x ∈ w, x = c) (s : Nat) : fusedVal (mkCtx h) w s = c := by
  have hq0 : qtys h ≠ [] := qtys_ne_nil h0
  simp only [fusedVal, mkCtx]
  rw [levelComponent_const hw0 hwc, computeTrend_const hq0 hc,
    mean_const hq0 hc, dowMeansGet_const hc]
  simp only [trendComponent]
  ring

theorem stepValue_mkCtx_const {h : List Obs} {c : ℚ} (h0 : h ≠ [])
    (hc : ∀ q ∈ qtys h, q = c) (hc0 : 0 ≤ c) {w : List ℚ} (hw0 : w ≠ [])
    (hwc : ∀ x ∈ w, x = c) (s : Nat) : stepValue (mkCtx h) w s = c := by
  rw [stepValue, fusedVal_mkCtx_const h0 hc hw0 hwc, pymax_eq_max, max_eq_right hc0]

theorem runSteps_const {h : List Obs} {c : ℚ} (h0 : h ≠ [])
    (hc : ∀ q ∈ qtys h, q = c) (hc0 : 0 ≤ c) :
    ∀ (k : Nat) (w : List ℚ) (s0 : Nat), w ≠ [] → (∀ x ∈ w, x = c) →
      (runSteps (mkCtx h) w s0 k).map Step.value = List.replicate k c := by
  intro k
  induction k with
  | zero => intro w s0 _ _; rfl
  | succ k ih =>
    intro w s0 hw0 hwc
    have hv : stepValue (mkCtx h) w s0 = c := stepValue_mkCtx_const h0 hc hc0 hw0 hwc s0
    have hwc2 : ∀ x ∈ (fuseStep (mkCtx h) w s0).2, x = c := by
      intro x hx
      have := nextWindow_subset w (stepValue (mkCtx h) w s0) x hx
      rcases List.mem_append.mp this with hxa | hxb
      · exact hwc x hxa
      · rw [List.mem_singleton.mp hxb, hv]
    have hw02 : (fuseStep (mkCtx h) w s0).2 ≠ [] := nextWindow_ne_nil _ _
    simp only [runSteps, List.map_cons, List.replicate_succ]
    rw [ih _ _ hw02 hwc2]
    simp [fuseStep, hv]

theorem runSteps_value_nonneg (c : FuseCtx) :
    ∀ (k : Nat) (w : List ℚ) (s0 : Nat) (st : Step),
      st ∈ runSteps c w s0 k → 0 ≤ st.value := by
  intro k
  induction k with
  | zero => intro w s0 st h; simp [runSteps] at h
  | succ k ih =>
    intro w s0 st h
    rcases List.mem_cons.mp h with h1 | h2
    · rw [h1]
      show (0 : ℚ) ≤ stepValue c w s0
      rw [stepValue, pymax_eq_max]
      exact le_max_left 0 _
    · exact ih _ _ st h2

theorem forecastProduct_ok {h : List Obs} (hlen : 30 ≤ h.length) (n : Nat) :
    forecastProduct h n = Except.ok (forecastCore h n) := by
  have h0 : h ≠ [] := by
    intro hnil
    rw [hnil] at hlen
    simp at hlen
  rw [forecastProduct, if_neg (by simp [h0]), if_neg (by omega)]

theorem pyInt_nonneg {q : ℚ} (hq : 0 ≤ q) : 0 ≤ pyInt q := by
  rw [pyInt, if_pos hq]
  exact Rat.le_floor.mpr (by exact_mod_cast hq)

theorem sampleVar_const {l : List ℚ} {c : ℚ} (hc : ∀ x ∈ l, x = c) :
    sampleVar l = 0 := by
  cases l with
  | nil => simp [sampleVar]
  | cons a t =>
    rw [sampleVar]
    have hz : (((a :: t).map (fun y => (y - mean (a :: t)) ^ 2)).sum : ℚ) = 0 := by
      apply List.sum_eq_zero
      intro x hx
      rcases List.mem_map.mp hx with ⟨y, hy, hyx⟩
      rw [← hyx, mean_const (by simp) hc, hc y hy]
      ring
    rw [hz, zero_div]

theorem matpfnTrend_const {h : List Obs} {c : ℚ} (h0 : h ≠ [])
    (hc : ∀ q ∈ qtys h, q = c) : matpfnTrend h = (0, c) := by
  have hq0 : qtys h ≠ [] := qtys_ne_nil h0
  rw [matpfnTrend]
  by_cases hall : (tIdx h).all (fun x => decide (x = (tIdx h).headD 0)) = true
  · rw [if_pos hall, mean_const hq0 hc]
  · rw [if_neg hall, olsSlope_const hq0 hc, olsIntercept_const hq0 hc]

theorem matpfnFusedRaw_const {h : List Obs} {c : ℚ} (h0 : h ≠ [])
    (hc : ∀ q ∈ qtys h, q = c) (i : Nat) : matpfnFusedRaw h i = c := by
  have hq0 : qtys h ≠ [] := qtys_ne_nil h0
  have hlev : matpfnLevelMean h = c := by
    have hlpos : 0 < h.length := List.length_pos.mpr h0
    have hmin : min 7 h.length ≤ (qtys h).length := by
      simp [qtys]
    apply mean_const (lastN_ne_nil (by omega) hmin)
    exact fun x hx => hc x (lastN_subset _ _ x hx)
  have hlast : lastQty h = c := hc _ (getLastD_mem hq0 0)
  rw [matpfnFusedRaw, matpfnTrend_const h0 hc, hlev, hlast, matpfnGlobalMean,
    mean_const hq0 hc, dowMeansGet_const hc]
  ring

theorem matpfnVol_const {h : List Obs} {c : ℚ} (hc : ∀ q ∈ qtys h, q = c) :
    matpfnVol h = 0 := by
  rw [matpfnVol]
  by_cases h1 : 1 < h.length
  · rw [if_pos h1, sampleVar_const hc]
    simp [Real.sqrt_zero]
  · rw [if_neg h1]

theorem pyRoundR_intCast (z : ℤ) : pyRoundR ((z : ℤ) : ℝ) = z := by
  rw [pyRoundR]
  rw [if_pos]
  · exact Int.floor_intCast z
  · rw [Int.floor_intCast]
    norm_num

theorem ne_nil_of_not_isEmpty {α : Type _} {l : List α} (h : ¬ l.isEmpty = true) :
    l ≠ [] := by
  intro hnil
  rw [hnil] at h
  exact h rfl

/- ### Claim theorems -/

/-- C4: the forecast call fails with a structured error, producing no forecast
points, exactly when the validated history is empty (EmptyHistory, fatal with
no fallback in every variant) or has fewer than 30 observations (the serving
predictor path's threshold); every history meeting the threshold succeeds with
a forecast of the requested length.  The degraded variant signals an empty
history by producing no forecast points. -/
theorem C4_error_iff_insufficient_history :
    ∀ (h : List Obs) (n : Nat),
      ((∃ e, forecastProduct h n = Except.error e) ↔ h.length < 30)
      ∧ (h = [] → forecastProduct h n = Except.error "No sales data for this product.")
      ∧ (30 ≤ h.length → forecastProduct h n = Except.ok (forecastCore h n)
          ∧ (forecastCore h n).steps.length = n)
      ∧ simpleForecast [] n = [] := by
  intro h n
  refine ⟨⟨?_, ?_⟩, ?_, ?_, ?_⟩
  · rintro ⟨e, he⟩
    by_contra hge
    rw [forecastProduct_ok (by omega) n] at he
    exact Except.noConfusion he
  · intro hlt
    by_cases h0 : h.isEmpty
    · exact ⟨_, by rw [forecastProduct, if_pos h0]⟩
    · exact ⟨_, by rw [forecastProduct, if_neg h0, if_pos hlt]⟩
  · intro hnil
    subst hnil
    rfl
  · intro hge
    exact ⟨forecastProduct_ok hge n, by simp [forecastCore, runSteps_length]⟩
  · rfl

theorem C4_witness :
    forecastProduct [] 7 = Except.error "No sales data for this product."
    ∧ (∃ e, forecastProduct [((0 : Int), (1 : ℚ))] 7 = Except.error e) :=
  ⟨(C4_error_iff_insufficient_history [] 7).2.1 rfl,
   (C4_error_iff_insufficient_history [((0 : Int), (1 : ℚ))] 7).1.mpr (by decide)⟩

unseal Rat.add Rat.mul Rat.inv Rat.sub Rat.ofScientific in
/-- C5 counterexample: the degraded constant-repeat path truncates the last
observed value with Python `int()`; with last value 7.5 and horizon 4 it
returns [7, 7, 7, 7], not the last observed value repeated. -/
theorem C5_counterexample :
    (simpleForecast [((0 : Int), (15 / 2 : ℚ))] 4).map (fun z => ((z : ℤ) : ℚ))
      ≠ List.replicate 4 ((15 : ℚ) / 2) := by
  decide

/-- C5 (amended): under the degraded policy (non-empty history shorter than 5),
the result for horizon h is the integer truncation (Python `int()`) of the last
observed value repeated h times; for an integer-valued last observation such as
7 this is exactly the last value, e.g. [7, 7, 7, 7] for horizon 4. -/
theorem C5_degraded_constant_repeat :
    ∀ (h : List Obs) (n : Nat), h ≠ [] → h.length < 5 →
      simpleForecast h n = List.replicate n (pyInt (lastQty h)) := by
  intro h n h0 h5
  have hne : ¬ h.isEmpty = true := by
    intro hie
    exact h0 (List.isEmpty_iff.mp hie)
  rw [simpleForecast, if_neg hne, if_pos h5]

unseal Rat.add Rat.mul Rat.inv Rat.sub Rat.ofScientific in
theorem C5_witness :
    simpleForecast [((0 : Int), (4 : ℚ)), ((1 : Int), (5 : ℚ)), ((2 : Int), (7 : ℚ))] 4
      = [7, 7, 7, 7] := by
  rw [C5_degraded_constant_repeat _ 4 (by decide) (by decide)]
  decide

def HW30 : List Obs := (List.range 30).map (fun i => ((i : Int), (3 : ℚ)))

/-- C7: at every forecast step the fused (floored) prediction is appended to the
working level window and, whenever the window would exceed the 30-entry cap, the
oldest entry is evicted (FIFO); consequently the window never holds more than 30
entries at any step boundary of a forecast call (and in a serving-path call it
holds exactly 30 throughout). -/
theorem C7_window_fifo_capped :
    ∀ (c : FuseCtx) (w : List ℚ) (step : Nat) (h : List Obs) (i : Nat),
      (w.length ≤ 30 → ((fuseStep c w step).2).length ≤ 30)
      ∧ (w.length = 30 → (fuseStep c w step).2 = w.tail ++ [stepValue c w step])
      ∧ (w.length < 30 → (fuseStep c w step).2 = w ++ [stepValue c w step])
      ∧ (30 ≤ h.length → (iterW (mkCtx h) (seedWindow h) 1 i).length = 30) := by
  intro c w step h i
  refine ⟨fun hw => nextWindow_length_le hw _, ?_, ?_, ?_⟩
  · intro hw
    show nextWindow w (stepValue c w step) = _
    rw [nextWindow, if_pos (by simp [hw])]
    cases w with
    | nil => simp at hw
    | cons a t => rfl
  · intro hw
    show nextWindow w (stepValue c w step) = _
    rw [nextWindow, if_neg (by simp; omega)]
  · intro hlen
    exact iterW_length_eq _ i _ 1 (lastN_length (by simpa [qtys] using hlen))

theorem C7_witness :
    ((fuseStep (mkCtx HW30) (seedWindow HW30) 1).2).length ≤ 30
    ∧ (iterW (mkCtx HW30) (seedWindow HW30) 1 5).length = 30 :=
  ⟨(C7_window_fifo_capped (mkCtx HW30) (seedWindow HW30) 1 HW30 5).1 (by decide),
   (C7_window_fifo_capped (mkCtx HW30) (seedWindow HW30) 1 HW30 5).2.2.2 (by decide)⟩

/-- C9: when only one point is available the trend estimator returns slope 0 and
the single value's level as the intercept, and when all selected time indices
are identical the matpfn trend agent returns slope 0 and the series mean as the
intercept; both are total definitions, so the degenerate fit never surfaces as
an error to the caller. -/
theorem C9_degenerate_trend_fit :
    (∀ v : ℚ, computeTrend [v] 90 = (0, v))
    ∧ (∀ h : List Obs, h ≠ [] → (∀ x ∈ tIdx h, x = (tIdx h).headD 0) →
        matpfnTrend h = (0, mean (qtys h))) := by
  constructor
  · intro v
    rw [computeTrend, if_pos (by simp)]
    rfl
  · intro h h0 hall
    rw [matpfnTrend,
      if_pos (List.all_eq_true.mpr (fun x hx => decide_eq_true (hall x hx)))]

unseal Rat.add Rat.mul Rat.inv Rat.sub Rat.ofScientific in
theorem C9_witness :
    matpfnTrend [((0 : Int), (3 : ℚ)), ((0 : Int), (4 : ℚ))]
      = (0, mean (qtys [((0 : Int), (3 : ℚ)), ((0 : Int), (4 : ℚ))]))
    ∧ mean (qtys [((0 : Int), (3 : ℚ)), ((0 : Int), (4 : ℚ))]) = 7 / 2 :=
  ⟨C9_degenerate_trend_fit.2 _ (by decide) (by decide), by decide⟩

/-- C10 (implicit): on the serving path a forecast only proceeds with at least
30 observations and the working window is seeded with exactly the last 30 of
them, so the window has length exactly 30 before and after every step; hence
the level component always averages the last 7 window entries and the
shorter-window fallback branch of the level computation is unreachable. -/
theorem C10_level_window_exactly_30 :
    ∀ (h : List Obs) (n i : Nat), 30 ≤ h.length →
      (seedWindow h).length = 30
      ∧ (iterW (mkCtx h) (seedWindow h) 1 i).length = 30
      ∧ levelComponent (iterW (mkCtx h) (seedWindow h) 1 i)
          = mean (lastN 7 (iterW (mkCtx h) (seedWindow h) 1 i))
      ∧ (i < n → (forecastCore h n).steps.getD i ⟨0, 0, 0⟩
          = (fuseStep (mkCtx h) (iterW (mkCtx h) (seedWindow h) 1 i) (1 + i)).1) := by
  intro h n i hlen
  have hseed : (seedWindow h).length = 30 := lastN_length (by simpa [qtys] using hlen)
  have hiter : (iterW (mkCtx h) (seedWindow h) 1 i).length = 30 :=
    iterW_length_eq _ i _ 1 hseed
  refine ⟨hseed, hiter, ?_, ?_⟩
  · rw [levelComponent, if_pos (by omega)]
  · intro hin
    have := runSteps_getD (mkCtx h) ⟨0, 0, 0⟩ n i (seedWindow h) 1 hin
    simpa [forecastCore] using this

theorem C10_witness :
    (iterW (mkCtx HW30) (seedWindow HW30) 1 2).length = 30
    ∧ levelComponent (iterW (mkCtx HW30) (seedWindow HW30) 1 2)
        = mean (lastN 7 (iterW (mkCtx HW30) (seedWindow HW30) 1 2)) :=
  ⟨(C10_level_window_exactly_30 HW30 3 2 (by decide)).2.1,
   (C10_level_window_exactly_30 HW30 3 2 (by decide)).2.2.1⟩

/-- C2: every quantity in a successfully returned forecast is non-negative: the
serving path floors each fused value at 0, and the degraded constant-repeat
path repeats the truncated last observation, which is non-negative for every
history of non-negative quantities. -/
theorem C2_forecast_values_nonnegative :
    ∀ (h : List Obs) (n : Nat),
      (∀ r, forecastProduct h n = Except.ok r → ∀ v ∈ r.steps.map Step.value, 0 ≤ v)
      ∧ ((∀ q ∈ qtys h, 0 ≤ q) → ∀ z ∈ simpleForecast h n, 0 ≤ z) := by
  intro h n
  constructor
  · intro r hr v hv
    by_cases h0 : h.isEmpty
    · rw [forecastProduct, if_pos h0] at hr
      exact Except.noConfusion hr
    · by_cases h30 : h.length < 30
      · rw [forecastProduct, if_neg h0, if_pos h30] at hr
        exact Except.noConfusion hr
      · rw [forecastProduct, if_neg h0, if_neg h30] at hr
        injection hr with hre
        rcases List.mem_map.mp hv with ⟨st, hst, hstv⟩
        rw [← hstv]
        apply runSteps_value_nonneg (mkCtx h) n (seedWindow h) 1 st
        rw [← hre] at hst
        simpa [forecastCore] using hst
  · intro hq z hz
    by_cases h0 : h.isEmpty
    · rw [simpleForecast, if_pos h0] at hz
      simp at hz
    · rw [simpleForecast, if_neg h0] at hz
      by_cases h5 : h.length < 5
      · rw [if_pos h5] at hz
        rw [List.eq_of_mem_replicate hz]
        exact pyInt_nonneg (hq _ (getLastD_mem (qtys_ne_nil (ne_nil_of_not_isEmpty h0)) 0))
      · rw [if_neg h5] at hz
        rcases List.mem_map.mp hz with ⟨j, hj, hjz⟩
        rw [← hjz]
        exact le_max_left 0 _

unseal Rat.add Rat.mul Rat.inv Rat.sub Rat.ofScientific in
theorem C2_witness :
    (∀ v ∈ (forecastCore HW30 2).steps.map Step.value, 0 ≤ v)
    ∧ (∀ z ∈ simpleForecast [((0 : Int), (4 : ℚ))] 3, 0 ≤ z) :=
  ⟨(C2_forecast_values_nonnegative HW30 2).1 (forecastCore HW30 2)
      (forecastProduct_ok (by decide) 2),
   (C2_forecast_values_nonnegative [((0 : Int), (4 : ℚ))] 3).2 (by decide)⟩

theorem getD_eq_getElem {l : List Step} {i : Nat} (d : Step) (hi : i < l.length) :
    l.getD i d = l[i] := by
  rw [List.getD_eq_getElem?_getD, List.getElem?_eq_getElem hi, Option.getD_some]

/-- C8: for every history meeting the 30-observation threshold, horizon 0
returns an empty forecast without error, and for every horizon n the call
succeeds with exactly n forecast points whose dates are the n days after the
last observed date, in strictly increasing date order. -/
theorem C8_horizon_shape :
    ∀ (h : List Obs) (n : Nat), 30 ≤ h.length →
      forecastProduct h 0 = Except.ok { steps := [], histEcho := lastN 120 h }
      ∧ forecastProduct h n = Except.ok (forecastCore h n)
      ∧ (forecastCore h n).steps.length = n
      ∧ (∀ i, i < n → ((forecastCore h n).steps.getD i ⟨0, 0, 0⟩).date
          = lastDateOf h + (i : Int) + 1)
      ∧ List.Pairwise (fun a b => a.date < b.date) (forecastCore h n).steps := by
  intro h n hlen
  have hlen2 : (forecastCore h n).steps.length = n := by
    simp [forecastCore, runSteps_length]
  have hdate : ∀ i, i < n → ((forecastCore h n).steps.getD i ⟨0, 0, 0⟩).date
      = lastDateOf h + (i : Int) + 1 := by
    intro i hin
    have hch : (forecastCore h n).steps = runSteps (mkCtx h) (seedWindow h) 1 n := rfl
    rw [hch, runSteps_getD (mkCtx h) ⟨0, 0, 0⟩ n i (seedWindow h) 1 hin]
    show (mkCtx h).lastDate + ((1 + i : Nat) : Int) = lastDateOf h + (i : Int) + 1
    have hld : (mkCtx h).lastDate = lastDateOf h := rfl
    rw [hld]
    push_cast
    omega
  refine ⟨?_, forecastProduct_ok hlen n, hlen2, hdate, ?_⟩
  · rw [forecastProduct_ok hlen 0]
    rfl
  · apply List.pairwise_iff_getElem.mpr
    intro i j hi hj hij
    have hi2 : i < n := by omega
    have hj2 : j < n := by omega
    have e1 : ((forecastCore h n).steps[i]).date = lastDateOf h + (i : Int) + 1 := by
      rw [← getD_eq_getElem ⟨0, 0, 0⟩ hi]
      exact hdate i hi2
    have e2 : ((forecastCore h n).steps[j]).date = lastDateOf h + (j : Int) + 1 := by
      rw [← getD_eq_getElem ⟨0, 0, 0⟩ hj]
      exact hdate j hj2
    rw [e1, e2]
    omega

theorem C8_witness :
    (forecastCore HW30 2).steps.length = 2
    ∧ forecastProduct HW30 0 = Except.ok { steps := [], histEcho := lastN 120 HW30 } :=
  ⟨(C8_horizon_shape HW30 2 (by decide)).2.2.1,
   (C8_horizon_shape HW30 2 (by decide)).1⟩

/-- C6: for histories with at least 2 points, the trend component used at
forecast step s equals the least-squares fitted value at the last index of the
trailing window of size min(len, 90) plus slope times s (the spec's
extrapolation contract); and inside the forecast loop every step's fused value
uses exactly that trend component, with the slope and end-of-window level
computed once from the original series (the context of the loop) and reused
for every step. -/
theorem C6_trend_extrapolation_refines_spec :
    (∀ (vs : List ℚ) (s : Nat), 2 ≤ vs.length →
      trendComponent (computeTrend vs 90).1 (computeTrend vs 90).2 s
        = specTrendExtrapolation vs s)
    ∧ (∀ (h : List Obs) (n i : Nat), i < n →
      ((forecastCore h n).steps.getD i ⟨0, 0, 0⟩).fused
        = (2 / 5) * levelComponent (iterW (mkCtx h) (seedWindow h) 1 i)
          + (2 / 5) * trendComponent (computeTrend (qtys h) 90).1
              (computeTrend (qtys h) 90).2 (1 + i)
          + (1 / 5) * dowMeansGet h (dow (lastDateOf h + ((1 + i : Nat) : Int)))
              (mean (qtys h))) := by
  constructor
  · intro vs s h2
    rw [computeTrend, if_neg (by omega), trendComponent, specTrendExtrapolation,
      trendXs, trendWin]
    ring
  · intro h n i hin
    have hch : (forecastCore h n).steps = runSteps (mkCtx h) (seedWindow h) 1 n := rfl
    rw [hch, runSteps_getD (mkCtx h) ⟨0, 0, 0⟩ n i (seedWindow h) 1 hin]
    rfl

theorem C6_witness :
    (trendComponent (computeTrend [(1 : ℚ), 2, 4] 90).1 (computeTrend [(1 : ℚ), 2, 4] 90).2 3
      = specTrendExtrapolation [(1 : ℚ), 2, 4] 3)
    ∧ ((forecastCore HW30 2).steps.getD 0 ⟨0, 0, 0⟩).fused
        = (2 / 5) * levelComponent (iterW (mkCtx HW30) (seedWindow HW30) 1 0)
          + (2 / 5) * trendComponent (computeTrend (qtys HW30) 90).1
              (computeTrend (qtys HW30) 90).2 (1 + 0)
          + (1 / 5) * dowMeansGet HW30 (dow (lastDateOf HW30 + ((1 + 0 : Nat) : Int)))
              (mean (qtys HW30)) :=
  ⟨C6_trend_extrapolation_refines_spec.1 [(1 : ℚ), 2, 4] 3 (by decide),
   C6_trend_extrapolation_refines_spec.2 HW30 2 0 (by decide)⟩

def HC35 : List Obs := (List.range 35).map (fun i => ((i : Int), (10 : ℚ)))

/-- C3: for every history whose quantities are one constant value repeated
(long enough to pass the length check) and every horizon, every forecast value
equals that constant: exactly on the serving path (trend slope 0, seasonality
equal to the constant, clamp-free fusion reproducing the constant), and on the
matpfn variant for integer constants (whose rounding to integer output is the
identity); in particular 35 days of quantity 10 with horizon 5 gives
[10, 10, 10, 10, 10]. -/
theorem C3_constant_history_constant_forecast :
    (∀ (h : List Obs) (n : Nat) (c : ℚ), 30 ≤ h.length → (∀ q ∈ qtys h, q = c) →
      0 ≤ c → (forecastCore h n).steps.map Step.value = List.replicate n c)
    ∧ (∀ (h : List Obs) (n : Nat) (z : ℤ), 5 ≤ h.length → (∀ q ∈ qtys h, q = (z : ℚ)) →
      0 ≤ z → simpleForecast h n = List.replicate n z) := by
  constructor
  · intro h n c hlen hc hc0
    have h0 : h ≠ [] := by
      intro hnil
      rw [hnil] at hlen
      simp at hlen
    have hseedlen : (seedWindow h).length = 30 :=
      lastN_length (by simpa [qtys] using hlen)
    have hseedne : seedWindow h ≠ [] := by
      intro hnil
      rw [hnil] at hseedlen
      simp at hseedlen
    have hseedc : ∀ x ∈ seedWindow h, x = c :=
      fun x hx => hc x (lastN_subset _ _ x hx)
    simpa [forecastCore] using runSteps_const h0 hc hc0 n (seedWindow h) 1 hseedne hseedc
  · intro h n z hlen hc hz0
    have h0 : h ≠ [] := by
      intro hnil
      rw [hnil] at hlen
      simp at hlen
    have hne : ¬ h.isEmpty = true := fun hie => h0 (List.isEmpty_iff.mp hie)
    rw [simpleForecast, if_neg hne, if_neg (by omega)]
    have hclamp : ∀ j : Nat, matpfnFusedClamped h (j + 1) = ((z : ℤ) : ℝ) := by
      intro j
      rw [matpfnFusedClamped, if_neg (by rw [matpfnVol_const hc]; simp),
        matpfnFusedRaw_const h0 hc]
      norm_cast
    have hf : ∀ j ∈ List.range n,
        (fun j => max 0 (pyRoundR (matpfnFusedClamped h (j + 1)))) j
          = (fun _ => z) j := by
      intro j _
      show max 0 (pyRoundR (matpfnFusedClamped h (j + 1))) = z
      rw [hclamp j, pyRoundR_intCast]
      exact max_eq_right hz0
    rw [List.map_congr_left hf, List.map_const', List.length_range]

unseal Rat.add Rat.mul Rat.inv Rat.sub Rat.ofScientific in
theorem C3_witness :
    (forecastCore HC35 5).steps.map Step.value = List.replicate 5 (10 : ℚ)
    ∧ simpleForecast HC35 5 = List.replicate 5 (10 : ℤ) :=
  ⟨C3_constant_history_constant_forecast.1 HC35 5 10 (by decide) (by decide) (by decide),
   C3_constant_history_constant_forecast.2 HC35 5 10 (by decide) (by decide) (by decide)⟩

/-- The decreasing 30-day history used to exhibit a fused value of the serving
engine outside the volatility band: quantities 29, 28, ..., 0 on consecutive
days. -/
def HDec : List Obs := (List.range 30).map (fun i => ((i : Int), (29 - i : ℚ)))

/-- The fused value (before the non-negativity floor) produced by the serving
engine at forecast step 45 of `HDec`. -/
def hdecFused45 : ℚ := ((forecastCore HDec 45).steps.map Step.fused).getD 44 0

unseal Rat.add Rat.mul Rat.inv Rat.sub Rat.ofScientific in
theorem hdec_popVar_pos : (0 : ℚ) < popVar (qtys HDec) := by decide

unseal Rat.add Rat.mul Rat.inv Rat.sub Rat.ofScientific in
theorem hdec_sampleVar_pos : (0 : ℚ) < sampleVar (qtys HDec) := by decide

unseal Rat.add Rat.mul Rat.inv Rat.sub Rat.ofScientific in
theorem hdec_gap_pos : (0 : ℚ) < mean (qtys HDec) - hdecFused45 := by decide

unseal Rat.add Rat.mul Rat.inv Rat.sub Rat.ofScientific in
theorem hdec_gap_sq_popVar :
    9 * popVar (qtys HDec) < (mean (qtys HDec) - hdecFused45) ^ 2 := by decide

unseal Rat.add Rat.mul Rat.inv Rat.sub Rat.ofScientific in
theorem hdec_gap_sq_sampleVar :
    9 * sampleVar (qtys HDec) < (mean (qtys HDec) - hdecFused45) ^ 2 := by decide

theorem below_band_of_gap_sq {V : ℚ}
    (hgap : (0 : ℚ) < mean (qtys HDec) - hdecFused45)
    (hsq : 9 * V < (mean (qtys HDec) - hdecFused45) ^ 2) :
    ((hdecFused45 : ℚ) : ℝ)
      < ((mean (qtys HDec) : ℚ) : ℝ) - 3 * Real.sqrt ((V : ℚ) : ℝ) := by
  set m : ℝ := ((mean (qtys HDec) : ℚ) : ℝ) with hm
  set f : ℝ := ((hdecFused45 : ℚ) : ℝ) with hf
  have hgapR : (0 : ℝ) < m - f := by
    rw [hm, hf]
    have : ((0 : ℚ) : ℝ) < ((mean (qtys HDec) - hdecFused45 : ℚ) : ℝ) :=
      Rat.cast_lt.mpr hgap
    push_cast at this
    linarith
  have hsqR : ((V : ℚ) : ℝ) < ((m - f) / 3) ^ 2 := by
    have h9 : ((9 * V : ℚ) : ℝ) < (((mean (qtys HDec) - hdecFused45) ^ 2 : ℚ) : ℝ) :=
      Rat.cast_lt.mpr hsq
    push_cast at h9
    rw [hm, hf]
    nlinarith [h9]
  have hsqrt : Real.sqrt ((V : ℚ) : ℝ) < (m - f) / 3 :=
    (Real.sqrt_lt' (by linarith)).mpr hsqR
  linarith

/-- C1 counterexample: on a concrete 30-day strictly decreasing history with
positive volatility, the fused value produced by the serving engine
(`forecast_product`) at step 45, before the non-negativity floor, lies strictly
below grand_mean - 3*volatility for both the population and the sample
standard deviation of the original series: the serving path applies no
volatility clamp. -/
theorem C1_counterexample :
    (0 : ℚ) < popVar (qtys HDec)
    ∧ (0 : ℚ) < sampleVar (qtys HDec)
    ∧ ((hdecFused45 : ℚ) : ℝ)
        < ((mean (qtys HDec) : ℚ) : ℝ) - 3 * Real.sqrt ((popVar (qtys HDec) : ℚ) : ℝ)
    ∧ ((hdecFused45 : ℚ) : ℝ)
        < ((mean (qtys HDec) : ℚ) : ℝ) - 3 * Real.sqrt ((sampleVar (qtys HDec) : ℚ) : ℝ) :=
  ⟨hdec_popVar_pos, hdec_sampleVar_pos,
   below_band_of_gap_sq hdec_gap_pos hdec_gap_sq_popVar,
   below_band_of_gap_sq hdec_gap_pos hdec_gap_sq_sampleVar⟩

/-- C1 (amended): the volatility clamp exists only in the non-serving variant
`MATPFNModel.simple_forecast`: there, whenever volatility (the sample standard
deviation of the full observed series) is positive, the fused value after
clamping and before rounding/flooring lies within
[grand_mean - 3*volatility, grand_mean + 3*volatility] for every forecast
step; the serving predictor path applies only the non-negativity floor and its
fused values can leave that band (see the counterexample). -/
theorem C1_clamp_only_in_matpfn :
    ∀ (h : List Obs) (i : Nat), 0 < matpfnVol h →
      ((matpfnGlobalMean h : ℚ) : ℝ) - 3 * matpfnVol h ≤ matpfnFusedClamped h i
      ∧ matpfnFusedClamped h i ≤ ((matpfnGlobalMean h : ℚ) : ℝ) + 3 * matpfnVol h := by
  intro h i hv
  rw [matpfnFusedClamped, if_pos hv]
  refine ⟨le_max_left _ _, ?_⟩
  apply max_le
  · linarith
  · exact min_le_left _ _

unseal Rat.add Rat.mul Rat.inv Rat.sub Rat.ofScientific in
theorem h5lin_sampleVar_pos :
    (0 : ℚ) < sampleVar (qtys [((0 : Int), (0 : ℚ)), (1, 1), (2, 2), (3, 3), (4, 4)]) := by
  decide

theorem C1_witness :
    0 < matpfnVol [((0 : Int), (0 : ℚ)), (1, 1), (2, 2), (3, 3), (4, 4)]
    ∧ ((matpfnGlobalMean [((0 : Int), (0 : ℚ)), (1, 1), (2, 2), (3, 3), (4, 4)] : ℚ) : ℝ)
          - 3 * matpfnVol [((0 : Int), (0 : ℚ)), (1, 1), (2, 2), (3, 3), (4, 4)]
        ≤ matpfnFusedClamped [((0 : Int), (0 : ℚ)), (1, 1), (2, 2), (3, 3), (4, 4)] 1
    ∧ matpfnFusedClamped [((0 : Int), (0 : ℚ)), (1, 1), (2, 2), (3, 3), (4, 4)] 1
        ≤ ((matpfnGlobalMean [((0 : Int), (0 : ℚ)), (1, 1), (2, 2), (3, 3), (4, 4)] : ℚ) : ℝ)
          + 3 * matpfnVol [((0 : Int), (0 : ℚ)), (1, 1), (2, 2), (3, 3), (4, 4)] := by
  have hv : 0 < matpfnVol [((0 : Int), (0 : ℚ)), (1, 1), (2, 2), (3, 3), (4, 4)] := by
    rw [matpfnVol, if_pos (by decide)]
    apply Real.sqrt_pos.mpr
    exact_mod_cast h5lin_sampleVar_pos
  exact ⟨hv, (C1_clamp_only_in_matpfn _ 1 hv).1, (C1_clamp_only_in_matpfn _ 1 hv).2⟩
